import Mathlib

/-!
Verification of the small-molecular-dynamics-toolchain repository.

The repository consists of three independent command-line scripts:

* add_data_with_error_propagation.py — the quadrature combiner: loads two
  numeric tables, adds their second columns, combines their third columns by
  root-sum-square, and writes the modified first table.
* py_calc_contact_count.py — the contact counter: for every trajectory frame,
  counts inter-group atom pairs whose periodic distance is strictly below a
  threshold and records one (time, count) pair per frame.
* py_compute_work.py — the work integrator: detects the first prominent peak
  of a Gaussian-denoised force curve (scipy.signal.find_peaks with
  prominence=30), truncates the series, and integrates force over position
  with the trapezoidal rule (numpy.trapz).

Machine floating point is modelled by exact arithmetic: ℚ throughout, and ℝ
with Real.sqrt where the combiner takes a square root.  External library
calls are embedded from their documented algorithms (scipy.signal.find_peaks
and scipy.signal.peak_prominences with wlen=None, numpy.trapz, numpy.argmax)
or abstracted as explicit function parameters (the MDAnalysis
periodic-boundary distance function).  File loading is modelled by Option
inputs (none = the file could not be read/parsed); each embedded program
returns the list of file writes it performs together with an Except value,
reflecting the order of operations in the scripts: all writes happen after
every fallible step.
-/

/-- Error taxonomy of the three embedded pipelines (spec section 7).
ioError covers a missing/unreadable/unparsable input; noPeakFound is the
IndexError raised by peak_indices[0] on an empty peak list. -/
inductive ScriptErr where
  | ioError : ScriptErr
  | noPeakFound : ScriptErr
deriving DecidableEq

/-- A numeric table: rows of floating-point values, as produced by
numpy.loadtxt on a whitespace-delimited file with comment lines skipped. -/
abbrev Table (α : Type) := List (List α)

/-- Column j of a table (out-of-range reads default to 0; every claim
supplies the width hypotheses that make them in range). -/
def col {α : Type} [Zero α] (j : ℕ) (T : Table α) : List α :=
  T.map (fun r => r.getD j 0)

/-- Embedding of the combiner's two vectorized statements, in source order:
data1[:, 1] += data2[:, 1], then
data1[:, 2] = np.sqrt(data1[:, 2]**2 + data2[:, 2]**2).
The second statement reads the third column of the already-updated data1,
which the first statement did not touch.  The square root is a parameter so
that the definition stays executable; the theorems instantiate it with
Real.sqrt.  The result is the pair of the final values of (data1, data2). -/
def combinerRun {α : Type} [CommRing α] (sq : α → α) (A B : Table α) :
    Table α × Table α :=
  let A1 := List.zipWith (fun a b => a.set 1 (a.getD 1 0 + b.getD 1 0)) A B
  let A2 := List.zipWith
    (fun a b => a.set 2 (sq ((a.getD 2 0) ^ 2 + (b.getD 2 0) ^ 2))) A1 B
  (A2, B)

/-- The combiner script as a pipeline: load both tables (none = load
failure), transform, and only then write the single output table.  The first
component lists the tables written to disk (np.savetxt is the script's last
statement). -/
def combinerProgram {α : Type} [CommRing α] (sq : α → α)
    (d1 d2 : Option (Table α)) : List (Table α) × Except ScriptErr Unit :=
  match d1, d2 with
  | some A, some B => ([(combinerRun sq A B).1], Except.ok ())
  | _, _ => ([], Except.error ScriptErr.ioError)

/-- Setting index i leaves every other position of a list unchanged. -/
theorem getD_set_of_ne {α : Type} (a d : α) :
    ∀ (l : List α) (i j : ℕ), i ≠ j → (l.set i a).getD j d = l.getD j d := by
  intro l
  induction l with
  | nil => intro i j _; simp
  | cons x t ih =>
    intro i j h
    cases i with
    | zero =>
      cases j with
      | zero => exact absurd rfl h
      | succ j => simp
    | succ i =>
      cases j with
      | zero => simp
      | succ j => simpa using ih i j (fun hh => h (by omega))

/-- Setting an in-range index stores the given value there. -/
theorem getD_set_self_of_lt {α : Type} (a d : α) :
    ∀ (l : List α) (i : ℕ), i < l.length → (l.set i a).getD i d = a := by
  intro l
  induction l with
  | nil => intro i h; simp at h
  | cons x t ih =>
    intro i h
    cases i with
    | zero => simp
    | succ i => simpa using ih i (by simpa using h)

/-- One cons step of combinerRun. -/
theorem combinerRun_cons {α : Type} [CommRing α] (sq : α → α)
    (a b : List α) (A B : Table α) :
    (combinerRun sq (a :: A) (b :: B)).1 =
      ((a.set 1 (a.getD 1 0 + b.getD 1 0)).set 2
        (sq (((a.set 1 (a.getD 1 0 + b.getD 1 0)).getD 2 0) ^ 2
          + (b.getD 2 0) ^ 2)))
      :: (combinerRun sq A B).1 := rfl

/-- General contract of the combiner transformation: with equal row counts
and rows of at least 3 entries in the first table, the result keeps the row
count and column 0 of the first table, adds the second columns, and combines
the third columns through the square-root parameter. -/
theorem combinerRun_spec {α : Type} [CommRing α] (sq : α → α) :
    ∀ (A B : Table α), A.length = B.length → (∀ r ∈ A, 3 ≤ r.length) →
      (combinerRun sq A B).1.length = A.length ∧
      col 0 (combinerRun sq A B).1 = col 0 A ∧
      col 1 (combinerRun sq A B).1 =
        List.zipWith (· + ·) (col 1 A) (col 1 B) ∧
      col 2 (combinerRun sq A B).1 =
        List.zipWith (fun u v => sq (u ^ 2 + v ^ 2)) (col 2 A) (col 2 B) := by
  intro A
  induction A with
  | nil => intro B _ _; simp [combinerRun, col]
  | cons a A ih =>
    intro B hlen hA
    cases B with
    | nil => simp at hlen
    | cons b B =>
      obtain ⟨h1, h2, h3, h4⟩ := ih B (by simpa using hlen)
        (fun r hr => hA r (List.mem_cons_of_mem a hr))
      have ha3 : 3 ≤ a.length := hA a (List.mem_cons_self a A)
      have hset2 : ((a.set 1 (a.getD 1 0 + b.getD 1 0)).getD 2 0)
          = a.getD 2 0 := getD_set_of_ne _ _ _ 1 2 (by omega)
      rw [combinerRun_cons]
      refine ⟨?_, ?_, ?_, ?_⟩
      · simpa using h1
      · have hc0 : (((a.set 1 (a.getD 1 0 + b.getD 1 0)).set 2
            (sq (((a.set 1 (a.getD 1 0 + b.getD 1 0)).getD 2 0) ^ 2
              + (b.getD 2 0) ^ 2))).getD 0 0) = a.getD 0 0 := by
          rw [getD_set_of_ne _ _ _ 2 0 (by omega),
            getD_set_of_ne _ _ _ 1 0 (by omega)]
        simp only [col, List.map_cons] at h2 ⊢
        rw [hc0, h2]
      · have hc1 : (((a.set 1 (a.getD 1 0 + b.getD 1 0)).set 2
            (sq (((a.set 1 (a.getD 1 0 + b.getD 1 0)).getD 2 0) ^ 2
              + (b.getD 2 0) ^ 2))).getD 1 0) = a.getD 1 0 + b.getD 1 0 := by
          rw [getD_set_of_ne _ _ _ 2 1 (by omega),
            getD_set_self_of_lt _ _ _ 1 (by omega)]
        simp only [col, List.map_cons, List.zipWith_cons_cons] at h3 ⊢
        rw [hc1, h3]
      · have hc2 : (((a.set 1 (a.getD 1 0 + b.getD 1 0)).set 2
            (sq (((a.set 1 (a.getD 1 0 + b.getD 1 0)).getD 2 0) ^ 2
              + (b.getD 2 0) ^ 2))).getD 2 0)
            = sq ((a.getD 2 0) ^ 2 + (b.getD 2 0) ^ 2) := by
          rw [getD_set_self_of_lt _ _ _ 2 (by simp only [List.length_set]; omega),
            hset2]
        simp only [col, List.map_cons, List.zipWith_cons_cons] at h4 ⊢
        rw [hc2, h4]

/-- Columns other than 1 and 2 of the first table are not touched by the
combiner transformation (no width hypothesis needed). -/
theorem combinerRun_other_cols {α : Type} [CommRing α] (sq : α → α) :
    ∀ (A B : Table α), A.length = B.length → ∀ j : ℕ, j ≠ 1 → j ≠ 2 →
      col j (combinerRun sq A B).1 = col j A := by
  intro A
  induction A with
  | nil => intro B _ j _ _; simp [combinerRun, col]
  | cons a A ih =>
    intro B hlen j hj1 hj2
    cases B with
    | nil => simp at hlen
    | cons b B =>
      have h := ih B (by simpa using hlen) j hj1 hj2
      rw [combinerRun_cons]
      have hc : (((a.set 1 (a.getD 1 0 + b.getD 1 0)).set 2
          (sq (((a.set 1 (a.getD 1 0 + b.getD 1 0)).getD 2 0) ^ 2
            + (b.getD 2 0) ^ 2))).getD j 0) = a.getD j 0 := by
        rw [getD_set_of_ne _ _ _ 2 j (fun hh => hj2 hh.symm),
          getD_set_of_ne _ _ _ 1 j (fun hh => hj1 hh.symm)]
      simp only [col, List.map_cons] at h ⊢
      rw [hc, h]

/-- A 3-D coordinate, as one row of an MDAnalysis positions array. -/
abbrev Pos := ℚ × ℚ × ℚ

/-- One trajectory frame: the frame time (univ.trajectory.time) and the
positions of the two selected atom groups at that frame.  A selection that
resolves to zero atoms is an empty position list — MDAnalysis select_atoms
returns an empty AtomGroup in that case and raises SelectionError only for
malformed selection syntax. -/
structure Frame where
  time : ℚ
  pos1 : List Pos
  pos2 : List Pos

/-- Number of entries of the inter-group pairwise distance matrix that are
strictly below the threshold: the embedding of
len(np.where(distances.distance_array(g1, g2, box=...) < threshold)[0]).
The periodic-boundary-aware distance computed by MDAnalysis is abstracted as
the function parameter dist. -/
def countBelow (dist : Pos → Pos → ℚ) (thr : ℚ) (ps qs : List Pos) : ℕ :=
  ((ps.product qs).filter (fun pq => decide (dist pq.1 pq.2 < thr))).length

/-- The per-frame loop of analyze_vdw_contacts: count_group starts at 0 and
is overwritten by num_group only when num_group > 0; one (time, count)
record is appended per frame, in frame order. -/
def analyze_vdw_contacts (dist : Pos → Pos → ℚ) (thr : ℚ)
    (frames : List Frame) : List (ℚ × ℕ) :=
  frames.map (fun fr =>
    (fr.time,
      if 0 < countBelow dist thr fr.pos1 fr.pos2 then
        countBelow dist thr fr.pos1 fr.pos2
      else 0))

/-- The contact-counter script as a pipeline: opening the universe may fail
(none); the script writes no output files at all (records go to stdout), so
its write list is always empty. -/
def counterProgram (dist : Pos → Pos → ℚ) (thr : ℚ)
    (u : Option (List Frame)) :
    List (String × ℚ) × Except ScriptErr (List (ℚ × ℕ)) :=
  match u with
  | some frames => ([], Except.ok (analyze_vdw_contacts dist thr frames))
  | none => ([], Except.error ScriptErr.ioError)

/-- The guard `if num_group > 0: count_group = num_group` is the identity on
natural counts. -/
theorem contact_guard_id (n : ℕ) : (if 0 < n then n else 0) = n := by
  cases n with
  | zero => simp
  | succ n => simp

/-- analyze_vdw_contacts emits exactly the raw below-threshold count for
every frame. -/
theorem analyze_eq_map (dist : Pos → Pos → ℚ) (thr : ℚ)
    (frames : List Frame) :
    analyze_vdw_contacts dist thr frames =
      frames.map (fun fr => (fr.time, countBelow dist thr fr.pos1 fr.pos2)) := by
  unfold analyze_vdw_contacts
  simp only [contact_guard_id]

/-- Maximum of a list of rationals (0 for the empty list, which the scripts
never produce: np.argmax raises on an empty array). -/
def listMax : List ℚ → ℚ
  | [] => 0
  | [a] => a
  | a :: b :: rest => max a (listMax (b :: rest))

/-- Index of the first occurrence of the maximum, the behaviour of
numpy.argmax on a one-dimensional array. -/
def argmaxIdx : List ℚ → ℕ
  | [] => 0
  | [_] => 0
  | a :: b :: rest =>
    if a < listMax (b :: rest) then argmaxIdx (b :: rest) + 1 else 0

/-- Row-major flattening of a two-column table, the array over which
np.argmax(force_data) actually computes when force_data is the N x 2 array
returned by np.loadtxt. -/
def flattenTable (t : List (ℚ × ℚ)) : List ℚ :=
  t.flatMap (fun r => [r.1, r.2])

/-- The raw force series the script passes to integration:
force_data[:np.argmax(force_data), 1].  np.argmax is applied to the whole
two-column array, so the slice bound is an index into the row-major
flattening, not into the force column. -/
def rawSliceCode (f : List (ℚ × ℚ)) : List ℚ :=
  (f.take (argmaxIdx (flattenTable f))).map Prod.snd

/-- Modelled from the spec: the slice the spec and claim C1 describe, with
raw_peak_index the index of the global maximum of the raw force column
(force_data[:, 1]) and the series truncated to [0, raw_peak_index). -/
def rawSliceClaimed (f : List (ℚ × ℚ)) : List ℚ :=
  (f.take (argmaxIdx (f.map Prod.snd))).map Prod.snd

/-- numpy.trapz(y, x): sum of (x_{i+1} - x_i) * (y_i + y_{i+1}) / 2 over
consecutive sample pairs.  Modelled on equal-length paired sequences, the
only shape any theorem relies on (NumPy raises or broadcasts otherwise). -/
def trapz : List ℚ → List ℚ → ℚ
  | y0 :: y1 :: ys, x0 :: x1 :: xs =>
    (x1 - x0) * (y0 + y1) / 2 + trapz (y1 :: ys) (x1 :: xs)
  | _, _ => 0

/-- The plateau scan of scipy.signal._local_maxima_1d: starting just right
of a candidate rise, advance while the value stays equal to v and the index
stays left of the last sample.  The fuel argument makes the recursion
structural; fuel = length of the list always suffices. -/
def plateauEndAux (xs : List ℚ) (v : ℚ) : ℕ → ℕ → ℕ
  | 0, j => j
  | fuel + 1, j =>
    if j + 1 < xs.length ∧ xs.getD j 0 = v then plateauEndAux xs v fuel (j + 1)
    else j

/-- First index at or right of i+1 where the plateau of value xs[i] ends. -/
def plateauEnd (xs : List ℚ) (i : ℕ) : ℕ :=
  plateauEndAux xs (xs.getD i 0) xs.length (i + 1)

/-- The local-maximum test of scipy.signal._local_maxima_1d at index i:
i is an interior index, the sample left of i is strictly lower, and the
first sample after the plateau of i is strictly lower.  (Edges are never
peaks; a plateau running into the last sample is not a peak.) -/
def isPeakStart (xs : List ℚ) (i : ℕ) : Prop :=
  1 ≤ i ∧ i + 1 < xs.length ∧ xs.getD (i - 1) 0 < xs.getD i 0 ∧
    xs.getD (plateauEnd xs i) 0 < xs.getD i 0

instance (xs : List ℚ) (i : ℕ) : Decidable (isPeakStart xs i) :=
  inferInstanceAs (Decidable (1 ≤ i ∧ i + 1 < xs.length ∧
    xs.getD (i - 1) 0 < xs.getD i 0 ∧
    xs.getD (plateauEnd xs i) 0 < xs.getD i 0))

/-- The emitted peak index: the midpoint of the plateau
(left_edge + right_edge) // 2 of scipy's local maximum scan. -/
def peakMid (xs : List ℚ) (i : ℕ) : ℕ := (i + (plateauEnd xs i - 1)) / 2

/-- All local maxima of scipy.signal._local_maxima_1d, in ascending order:
scipy scans i = 1 .. n-2 and emits the plateau midpoint whenever the test
fires (its skip over the scanned plateau is only an optimization, since no
index strictly inside a plateau can fire the test again). -/
def localMaxima (xs : List ℚ) : List ℕ :=
  (List.range xs.length).filterMap
    (fun i => if isPeakStart xs i then some (peakMid xs i) else none)

/-- Pointwise maximum and minimum on ℚ, written with an explicit comparison
so that they reduce inside the kernel (the lattice instances do not). -/
def qmax (a b : ℚ) : ℚ := if a ≤ b then b else a

/-- Pointwise minimum on ℚ; see qmax. -/
def qmin (a b : ℚ) : ℚ := if a ≤ b then a else b

/-- Left half of scipy.signal._peak_prominences with wlen=None: walk left
from the peak while the value does not exceed the peak value, tracking the
minimum; stop past index 0 or at a strictly higher sample. -/
def leftMinAux (xs : List ℚ) (v : ℚ) : ℕ → ℕ → ℚ → ℚ
  | 0, _, m => m
  | fuel + 1, i, m =>
    if xs.getD i 0 ≤ v then
      if i = 0 then qmin m (xs.getD i 0)
      else leftMinAux xs v fuel (i - 1) (qmin m (xs.getD i 0))
    else m

/-- Minimum of the left base interval of a peak. -/
def leftMin (xs : List ℚ) (p : ℕ) : ℚ :=
  leftMinAux xs (xs.getD p 0) xs.length p (xs.getD p 0)

/-- Right half of scipy.signal._peak_prominences with wlen=None. -/
def rightMinAux (xs : List ℚ) (v : ℚ) : ℕ → ℕ → ℚ → ℚ
  | 0, _, m => m
  | fuel + 1, i, m =>
    if i < xs.length ∧ xs.getD i 0 ≤ v then
      rightMinAux xs v fuel (i + 1) (qmin m (xs.getD i 0))
    else m

/-- Minimum of the right base interval of a peak. -/
def rightMin (xs : List ℚ) (p : ℕ) : ℚ :=
  rightMinAux xs (xs.getD p 0) xs.length p (xs.getD p 0)

/-- Prominence of a peak: its height minus the higher of its two base
minima (scipy.signal.peak_prominences, wlen=None). -/
def prominence (xs : List ℚ) (p : ℕ) : ℚ :=
  xs.getD p 0 - qmax (leftMin xs p) (rightMin xs p)

/-- scipy.signal.find_peaks(xs, prominence=pmin)[0]: the local maxima whose
prominence is at least pmin, in ascending index order. -/
def findPeaksProm (xs : List ℚ) (pmin : ℚ) : List ℕ :=
  (localMaxima xs).filter (fun p => decide (pmin ≤ prominence xs p))

/-- max_force_index = find_peaks(gd[:, 1], prominence=30)[0][0]; none models
the IndexError on an empty peak list (the NoPeakFound failure). -/
def max_force_index (gdcol : List ℚ) : Option ℕ :=
  (findPeaksProm gdcol 30).head?

/-- The work-integrator script as a pipeline.  Inputs are the three loaded
two-column tables (none = load/parse failure).  On success it writes the two
scalars to work_performed.xvg and work_performed_gd_positions.xvg — the
writes are the script's last statements — and its stdout value is the
sim-position work.  The slices mirror the source: the raw force series is
cut at np.argmax(force_data) (rawSliceCode), the denoised force, its
positions and the raw positions are cut at max_force_index. -/
def workProgram (gd fd xd : Option (List (ℚ × ℚ))) :
    List (String × ℚ) × Except ScriptErr ℚ :=
  match gd, fd, xd with
  | some g, some f, some x =>
    (match max_force_index (g.map Prod.snd) with
     | none => ([], Except.error ScriptErr.noPeakFound)
     | some k =>
       ([("work_performed.xvg", trapz (rawSliceCode f) ((x.take k).map Prod.snd)),
         ("work_performed_gd_positions.xvg",
           trapz ((g.take k).map Prod.snd) ((g.take k).map Prod.fst))],
        Except.ok (trapz (rawSliceCode f) ((x.take k).map Prod.snd))))
  | _, _, _ => ([], Except.error ScriptErr.ioError)

/-- The plateau scan never moves left. -/
theorem plateauEndAux_ge (xs : List ℚ) (v : ℚ) :
    ∀ (fuel j : ℕ), j ≤ plateauEndAux xs v fuel j := by
  intro fuel
  induction fuel with
  | zero => intro j; simp [plateauEndAux]
  | succ fuel ih =>
    intro j
    unfold plateauEndAux
    split
    · exact le_trans (Nat.le_succ j) (ih (j + 1))
    · exact le_refl j

/-- Every index strictly inside the scanned plateau holds the plateau
value. -/
theorem plateauEndAux_const (xs : List ℚ) (v : ℚ) :
    ∀ (fuel j k : ℕ), j ≤ k → k < plateauEndAux xs v fuel j →
      xs.getD k 0 = v := by
  intro fuel
  induction fuel with
  | zero => intro j k hjk hk; simp [plateauEndAux] at hk; omega
  | succ fuel ih =>
    intro j k hjk hk
    unfold plateauEndAux at hk
    by_cases hc : j + 1 < xs.length ∧ xs.getD j 0 = v
    · rw [if_pos hc] at hk
      rcases Nat.eq_or_lt_of_le hjk with rfl | hlt
      · exact hc.2
      · exact ih (j + 1) k hlt hk
    · rw [if_neg hc] at hk; omega

/-- The plateau end lies strictly right of the peak start. -/
theorem plateauEnd_ge (xs : List ℚ) (i : ℕ) : i + 1 ≤ plateauEnd xs i :=
  plateauEndAux_ge xs (xs.getD i 0) xs.length (i + 1)

/-- Constancy of the plateau of a peak start. -/
theorem plateauEnd_const (xs : List ℚ) (i k : ℕ) (h1 : i + 1 ≤ k)
    (h2 : k < plateauEnd xs i) : xs.getD k 0 = xs.getD i 0 :=
  plateauEndAux_const xs (xs.getD i 0) xs.length (i + 1) k h1 h2

/-- Two distinct peak starts emit strictly increasing midpoints: a later
start cannot lie inside the earlier plateau (the plateau is constant while
a start needs a strict rise), so the plateaus are disjoint and ordered. -/
theorem peakMid_mono (xs : List ℚ) (i j : ℕ) (_hi : isPeakStart xs i)
    (hj : isPeakStart xs j) (hij : i < j) : peakMid xs i < peakMid xs j := by
  have hpi : i + 1 ≤ plateauEnd xs i := plateauEnd_ge xs i
  have hpj : j + 1 ≤ plateauEnd xs j := plateauEnd_ge xs j
  have hkey : plateauEnd xs i ≤ j := by
    by_contra hcon
    push_neg at hcon
    have hxj : xs.getD j 0 = xs.getD i 0 := plateauEnd_const xs i j hij hcon
    obtain ⟨hj1, _, hj3, _⟩ := hj
    rcases Nat.eq_or_lt_of_le (show i + 1 ≤ j from hij) with heq | hlt
    · have hji : j - 1 = i := by omega
      rw [hji, ← hxj] at hj3
      exact lt_irrefl _ hj3
    · have hxm : xs.getD (j - 1) 0 = xs.getD i 0 :=
        plateauEnd_const xs i (j - 1) (by omega) (by omega)
      rw [hxm, hxj] at hj3
      exact lt_irrefl _ hj3
  unfold peakMid
  omega

/-- A filterMap over an initial segment of the naturals is sorted whenever
the partial function is strictly monotone where defined. -/
theorem filterMap_range_sorted (f : ℕ → Option ℕ)
    (hf : ∀ i j a b, i < j → f i = some a → f j = some b → a < b) :
    ∀ n : ℕ, ((List.range n).filterMap f).Pairwise (· < ·) := by
  intro n
  induction n with
  | zero => simp
  | succ n ih =>
    rw [List.range_succ, List.filterMap_append]
    apply List.pairwise_append.mpr
    refine ⟨ih, ?_, ?_⟩
    · cases h : f n with
      | none => simp [h]
      | some a => simp [h]
    · intro a ha b hb
      obtain ⟨i, hi, hfi⟩ := List.mem_filterMap.mp ha
      obtain ⟨j, hj, hfj⟩ := List.mem_filterMap.mp hb
      simp only [List.mem_singleton] at hj
      subst hj
      exact hf i j a b (List.mem_range.mp hi) hfi hfj

/-- The local maxima list of the embedded scipy scan is strictly
increasing. -/
theorem localMaxima_sorted (xs : List ℚ) :
    (localMaxima xs).Pairwise (· < ·) := by
  apply filterMap_range_sorted
  intro i j a b hij hfi hfj
  by_cases hi : isPeakStart xs i
  · rw [if_pos hi] at hfi
    by_cases hj : isPeakStart xs j
    · rw [if_pos hj] at hfj
      obtain rfl : peakMid xs i = a := by simpa using hfi
      obtain rfl : peakMid xs j = b := by simpa using hfj
      exact peakMid_mono xs i j hi hj hij
    · rw [if_neg hj] at hfj; simp at hfj
  · rw [if_neg hi] at hfi; simp at hfi

/-- find_peaks output stays strictly increasing after the prominence
filter. -/
theorem findPeaksProm_sorted (xs : List ℚ) (pmin : ℚ) :
    (findPeaksProm xs pmin).Pairwise (· < ·) :=
  (localMaxima_sorted xs).filter _

/-- The head of a strictly sorted list is its minimum. -/
theorem sorted_head_le (l : List ℕ) (h : l.Pairwise (· < ·)) (i : ℕ)
    (hh : l.head? = some i) : ∀ j ∈ l, i ≤ j := by
  cases l with
  | nil => simp at hh
  | cons a t =>
    obtain rfl : a = i := by simpa using hh
    intro j hj
    rcases List.mem_cons.mp hj with rfl | hj
    · exact le_refl j
    · exact le_of_lt ((List.pairwise_cons.mp h).1 j hj)

/-- The head of a list is a member. -/
theorem head_mem_of_eq_some (l : List ℕ) (i : ℕ) (hh : l.head? = some i) :
    i ∈ l := by
  cases l with
  | nil => simp at hh
  | cons a t =>
    obtain rfl : a = i := by simpa using hh
    exact List.mem_cons_self _ _

/-- Last element of a cons cell through getLastD. -/
theorem getLast?_cons_eq (x0 : ℚ) :
    ∀ xs : List ℚ, (x0 :: xs).getLast? = some (xs.getLastD x0) := by
  intro xs
  induction xs generalizing x0 with
  | nil => simp
  | cons x1 xs ih => rw [List.getLast?_cons_cons, ih x1, List.getLastD_cons]

/-- Telescoping of the trapezoidal rule over a constant sample series. -/
theorem trapz_const_replicate (F : ℚ) :
    ∀ (xs : List ℚ) (x0 : ℚ),
      trapz (List.replicate (xs.length + 1) F) (x0 :: xs) =
        F * (xs.getLastD x0 - x0) := by
  intro xs
  induction xs with
  | nil => intro x0; simp [trapz]
  | cons x1 xs ih =>
    intro x0
    have h2 : List.replicate ((x1 :: xs).length + 1) F
        = F :: F :: List.replicate xs.length F := by
      simp [List.replicate_succ]
    rw [h2]
    have hstep : trapz (F :: F :: List.replicate xs.length F) (x0 :: x1 :: xs)
        = (x1 - x0) * (F + F) / 2
          + trapz (F :: List.replicate xs.length F) (x1 :: xs) := rfl
    rw [hstep]
    have hrep : (F :: List.replicate xs.length F)
        = List.replicate (xs.length + 1) F := by
      simp [List.replicate_succ]
    rw [hrep, ih x1, List.getLastD_cons]
    ring

/-- Example first input table of the combiner (one row, three columns). -/
def exA2 : Table ℝ := [[0, 1, 3]]

/-- Example second input table of the combiner; its column 0 differs from
exA2's. -/
def exB2 : Table ℝ := [[7, 2, 4]]

/-- Example raw force-vs-time table: times 0,1,2 with forces 1,5,2.  The
force column has its maximum 5 at row 1, while the row-major flattening
[0, 1, 1, 5, 2, 2] has its maximum at flat index 3. -/
def exForce : List (ℚ × ℚ) := [(0, 1), (1, 5), (2, 2)]

/-- Example denoised table: positions 0..4 with the force column
[0, 10, 40, 10, 0] of the spec scenario (peak at index 2, prominence 40). -/
def exGd : List (ℚ × ℚ) := [(0, 0), (1, 10), (2, 40), (3, 10), (4, 0)]

/-- A denoised table whose force column has no local maximum at all. -/
def exFlatGd : List (ℚ × ℚ) := [(0, 0), (1, 0)]

unseal Rat.add Rat.sub Rat.mul Rat.inv in
/-- C1 (code_bug): the claim says raw_peak_index is the index of the global
maximum of the raw force column and that the raw force series passed to
integration is that column's prefix [0, raw_peak_index).  The source instead
computes np.argmax(force_data) over the whole two-column array — a row-major
flat index — and uses it directly as a row bound.  On the table exForce
(times 0,1,2; forces 1,5,2) the claimed slice is [1] (column argmax 1), but
the code produces [1, 5, 2] (flat argmax 3), which even includes the
post-peak drop the script's own documentation says is excluded. -/
theorem work_raw_slice_code_bug :
    rawSliceCode exForce = [1, 5, 2] ∧
    rawSliceClaimed exForce = [1] ∧
    rawSliceCode exForce ≠ rawSliceClaimed exForce := by decide

/-- C2 (confirmed): for input tables with at least 3 columns and equal row
count, the combiner output has the row count of the first input, keeps its
column 0, adds the second columns elementwise, and sets the third column to
the elementwise root-sum-square of the inputs' third columns. -/
theorem combiner_contract (A B : Table ℝ) (hlen : A.length = B.length)
    (hA : ∀ r ∈ A, 3 ≤ r.length) (_hB : ∀ r ∈ B, 3 ≤ r.length) :
    (combinerRun Real.sqrt A B).1.length = A.length ∧
    col 0 (combinerRun Real.sqrt A B).1 = col 0 A ∧
    col 1 (combinerRun Real.sqrt A B).1 =
      List.zipWith (· + ·) (col 1 A) (col 1 B) ∧
    col 2 (combinerRun Real.sqrt A B).1 =
      List.zipWith (fun u v => Real.sqrt (u ^ 2 + v ^ 2)) (col 2 A) (col 2 B) :=
  combinerRun_spec Real.sqrt A B hlen hA

/-- Witness for C2 at the concrete tables exA2, exB2. -/
theorem combiner_contract_witness :
    (exA2.length = exB2.length ∧ (∀ r ∈ exA2, 3 ≤ r.length) ∧
      (∀ r ∈ exB2, 3 ≤ r.length)) ∧
    ((combinerRun Real.sqrt exA2 exB2).1.length = exA2.length ∧
      col 0 (combinerRun Real.sqrt exA2 exB2).1 = col 0 exA2 ∧
      col 1 (combinerRun Real.sqrt exA2 exB2).1 =
        List.zipWith (· + ·) (col 1 exA2) (col 1 exB2) ∧
      col 2 (combinerRun Real.sqrt exA2 exB2).1 =
        List.zipWith (fun u v => Real.sqrt (u ^ 2 + v ^ 2))
          (col 2 exA2) (col 2 exB2)) :=
  ⟨⟨rfl, by simp [exA2], by simp [exB2]⟩,
    combiner_contract exA2 exB2 rfl (by simp [exA2]) (by simp [exB2])⟩

/-- C6 (confirmed): the combiner is commutative in its two inputs on
columns 1 and 2, but column 0 always comes from the first input; on the
concrete pair exA2, exB2 the output's column 0 differs from exB2's. -/
theorem combiner_commutativity :
    (∀ A B : Table ℝ, A.length = B.length → (∀ r ∈ A, 3 ≤ r.length) →
      (∀ r ∈ B, 3 ≤ r.length) →
      col 1 (combinerRun Real.sqrt A B).1 = col 1 (combinerRun Real.sqrt B A).1 ∧
      col 2 (combinerRun Real.sqrt A B).1 = col 2 (combinerRun Real.sqrt B A).1 ∧
      col 0 (combinerRun Real.sqrt A B).1 = col 0 A) ∧
    col 0 (combinerRun Real.sqrt exA2 exB2).1 ≠ col 0 exB2 := by
  constructor
  · intro A B hlen hA hB
    obtain ⟨-, c0, c1, c2⟩ := combinerRun_spec Real.sqrt A B hlen hA
    obtain ⟨-, -, c1', c2'⟩ := combinerRun_spec Real.sqrt B A hlen.symm hB
    refine ⟨?_, ?_, c0⟩
    · rw [c1, c1']
      exact List.zipWith_comm_of_comm _ (fun u v => add_comm u v) _ _
    · rw [c2, c2']
      exact List.zipWith_comm_of_comm _ (fun u v => by rw [add_comm]) _ _
  · simp only [combinerRun, exA2, exB2, col, List.zipWith_cons_cons,
      List.zipWith_nil_right, List.map_cons, List.map_nil]
    norm_num

/-- Witness for C6 at the concrete tables exA2, exB2. -/
theorem combiner_commutativity_witness :
    col 1 (combinerRun Real.sqrt exA2 exB2).1
      = col 1 (combinerRun Real.sqrt exB2 exA2).1 ∧
    col 2 (combinerRun Real.sqrt exA2 exB2).1
      = col 2 (combinerRun Real.sqrt exB2 exA2).1 ∧
    col 0 (combinerRun Real.sqrt exA2 exB2).1 = col 0 exA2 :=
  combiner_commutativity.1 exA2 exB2 rfl (by simp [exA2]) (by simp [exB2])

/-- C10 (confirmed): only columns 1 and 2 of the output differ from the
first input — column 0 and every column of index 3 or greater pass through
unchanged — and the second input table is left exactly as loaded. -/
theorem combiner_frame_effect (A B : Table ℝ) (j : ℕ)
    (hlen : A.length = B.length) (h1 : j ≠ 1) (h2 : j ≠ 2) :
    col j (combinerRun Real.sqrt A B).1 = col j A ∧
    (combinerRun Real.sqrt A B).2 = B :=
  ⟨combinerRun_other_cols Real.sqrt A B hlen j h1 h2, rfl⟩

/-- Witness for C10 at the concrete tables exA2, exB2, columns 0 and 3. -/
theorem combiner_frame_effect_witness :
    (col 0 (combinerRun Real.sqrt exA2 exB2).1 = col 0 exA2 ∧
      (combinerRun Real.sqrt exA2 exB2).2 = exB2) ∧
    (col 3 (combinerRun Real.sqrt exA2 exB2).1 = col 3 exA2 ∧
      (combinerRun Real.sqrt exA2 exB2).2 = exB2) :=
  ⟨combiner_frame_effect exA2 exB2 0 rfl (by decide) (by decide),
    combiner_frame_effect exA2 exB2 3 rfl (by decide) (by decide)⟩

/-- C8 (confirmed): the trapezoidal rule used by the work integrator is
exact on a constant force: for a constant series of value F over positions
running from 0 to L, np.trapz returns F * L. -/
theorem trapz_constant_force (F L : ℚ) (y x : List ℚ)
    (hconst : ∀ e ∈ y, e = F) (hlen : y.length = x.length)
    (_hn : 2 ≤ x.length) (hhead : x.head? = some 0)
    (hlast : x.getLast? = some L) :
    trapz y x = F * L := by
  cases x with
  | nil => simp at hhead
  | cons x0 xs =>
    have hx0 : x0 = 0 := by simpa using hhead
    have hy : y = List.replicate (xs.length + 1) F := by
      have h1 : y = List.replicate y.length F :=
        List.eq_replicate_length.mpr hconst
      rw [h1, hlen]
      simp
    have hL : xs.getLastD x0 = L := by
      have h2 := getLast?_cons_eq x0 xs
      rw [h2] at hlast
      simpa using hlast
    rw [hy, trapz_const_replicate F xs x0, hL, hx0]
    ring

/-- Witness for C8: constant force 2 over positions 0, 1, 3 integrates to
2 * 3. -/
theorem trapz_constant_force_witness :
    (∀ e ∈ [(2 : ℚ), 2, 2], e = 2) ∧ trapz [(2 : ℚ), 2, 2] [0, 1, 3] = 2 * 3 :=
  ⟨by decide,
    trapz_constant_force 2 3 [2, 2, 2] [0, 1, 3] (by decide) (by decide)
      (by decide) (by decide) (by decide)⟩

/-- A concrete distance function for witnesses: squared Euclidean distance
(any function works, the distance is abstract in the embedding). -/
def exDist : Pos → Pos → ℚ :=
  fun p q => (p.1 - q.1) ^ 2 + (p.2.1 - q.2.1) ^ 2 + (p.2.2 - q.2.2) ^ 2

/-- A frame whose two single-atom groups are far apart (squared distance
25). -/
def exFrame0 : Frame := ⟨0, [(0, 0, 0)], [(5, 0, 0)]⟩

/-- A frame whose two single-atom groups are close (squared distance 1). -/
def exFrame1 : Frame := ⟨1, [(0, 0, 0)], [(1, 0, 0)]⟩

/-- A concrete two-frame trajectory. -/
def exFrames : List Frame := [exFrame0, exFrame1]

/-- A trajectory on which the first selection resolves to zero atoms in
every frame. -/
def exEmptyFrames : List Frame := [⟨0, [], [(0, 0, 0)]⟩, ⟨1, [], [(0, 0, 0)]⟩]

/-- The below-threshold count never exceeds the number of inter-group
pairs. -/
theorem countBelow_le (dist : Pos → Pos → ℚ) (thr : ℚ) (ps qs : List Pos) :
    countBelow dist thr ps qs ≤ ps.length * qs.length := by
  unfold countBelow
  calc (List.filter (fun pq => decide (dist pq.1 pq.2 < thr))
        (ps.product qs)).length
      ≤ (ps.product qs).length := List.length_filter_le _ _
    _ = ps.length * qs.length := List.length_product ps qs

/-- C4 (confirmed): the contact counter emits exactly one (time, count)
record per trajectory frame, in frame order, where count is the number of
entries of the inter-group distance matrix strictly below the threshold; a
frame with no pair below the threshold still contributes an explicit record
with count 0. -/
theorem contact_records_per_frame (dist : Pos → Pos → ℚ) (thr : ℚ)
    (frames : List Frame) :
    (analyze_vdw_contacts dist thr frames).length = frames.length ∧
    analyze_vdw_contacts dist thr frames =
      frames.map (fun fr => (fr.time, countBelow dist thr fr.pos1 fr.pos2)) ∧
    ∀ fr ∈ frames, countBelow dist thr fr.pos1 fr.pos2 = 0 →
      (fr.time, 0) ∈ analyze_vdw_contacts dist thr frames := by
  have hmap := analyze_eq_map dist thr frames
  refine ⟨by rw [hmap]; simp, hmap, ?_⟩
  intro fr hfr h0
  rw [hmap]
  exact List.mem_map.mpr ⟨fr, hfr, by rw [h0]⟩

unseal Rat.add Rat.sub Rat.mul Rat.inv in
/-- Witness for C4 on the concrete trajectory exFrames with threshold 2:
two records, and the far frame contributes the explicit record (0, 0). -/
theorem contact_records_per_frame_witness :
    (analyze_vdw_contacts exDist 2 exFrames).length = exFrames.length ∧
    ((0 : ℚ), (0 : ℕ)) ∈ analyze_vdw_contacts exDist 2 exFrames :=
  ⟨(contact_records_per_frame exDist 2 exFrames).1,
    (contact_records_per_frame exDist 2 exFrames).2.2 exFrame0
      (List.mem_cons_self _ _) (by decide)⟩

/-- C9 (confirmed): per frame the emitted count is bounded by
len(group1) * len(group2) (and, being a natural number, is at least 0), and
the guard that assigns the raw count only when it is positive is the
identity — the emitted records always carry the raw below-threshold
count. -/
theorem contact_count_invariants (dist : Pos → Pos → ℚ) (thr : ℚ)
    (frames : List Frame) :
    (∀ fr ∈ frames,
      countBelow dist thr fr.pos1 fr.pos2 ≤ fr.pos1.length * fr.pos2.length) ∧
    (∀ fr ∈ frames,
      (if 0 < countBelow dist thr fr.pos1 fr.pos2 then
        countBelow dist thr fr.pos1 fr.pos2
      else 0) = countBelow dist thr fr.pos1 fr.pos2) ∧
    analyze_vdw_contacts dist thr frames =
      frames.map (fun fr => (fr.time, countBelow dist thr fr.pos1 fr.pos2)) :=
  ⟨fun fr _ => countBelow_le dist thr fr.pos1 fr.pos2,
    fun _fr _ => contact_guard_id _,
    analyze_eq_map dist thr frames⟩

unseal Rat.add Rat.sub Rat.mul Rat.inv in
/-- Witness for C9 on the concrete trajectory exFrames. -/
theorem contact_count_invariants_witness :
    countBelow exDist 2 exFrame1.pos1 exFrame1.pos2
      ≤ exFrame1.pos1.length * exFrame1.pos2.length ∧
    (if 0 < countBelow exDist 2 exFrame1.pos1 exFrame1.pos2 then
      countBelow exDist 2 exFrame1.pos1 exFrame1.pos2
    else 0) = countBelow exDist 2 exFrame1.pos1 exFrame1.pos2 ∧
    analyze_vdw_contacts exDist 2 exFrames =
      exFrames.map (fun fr => (fr.time, countBelow exDist 2 fr.pos1 fr.pos2)) :=
  ⟨(contact_count_invariants exDist 2 exFrames).1 exFrame1
      (by simp [exFrames]),
    (contact_count_invariants exDist 2 exFrames).2.1 exFrame1
      (by simp [exFrames]),
    (contact_count_invariants exDist 2 exFrames).2.2⟩

unseal Rat.add Rat.sub Rat.mul Rat.inv in
/-- C3 (corrected, counterexample): the claim says an invocation whose
selection resolves to zero atoms fails with a SelectionError and emits no
per-frame records.  The code performs no such check — select_atoms returns
an empty AtomGroup for a zero-match selection — so on the concrete
trajectory exEmptyFrames, whose first group is empty in every frame, the
program still emits one record per frame (with count 0) instead of failing:
the emitted record list is [(0, 0), (1, 0)], not empty. -/
theorem contact_empty_selection_counterexample :
    analyze_vdw_contacts exDist 15 exEmptyFrames = [(0, 0), (1, 0)] ∧
    analyze_vdw_contacts exDist 15 exEmptyFrames ≠ ([] : List (ℚ × ℕ)) := by
  decide

/-- C3 (amended): if either selection resolves to zero atoms, the contact
counter does not fail; it emits one record per frame, each with count 0. -/
theorem contact_empty_selection_no_failure (dist : Pos → Pos → ℚ) (thr : ℚ)
    (frames : List Frame) (h : ∀ fr ∈ frames, fr.pos1 = [] ∨ fr.pos2 = []) :
    analyze_vdw_contacts dist thr frames =
      frames.map (fun fr => (fr.time, 0)) := by
  unfold analyze_vdw_contacts
  apply List.map_congr_left
  intro fr hfr
  rcases h fr hfr with h1 | h1 <;>
    simp [countBelow, h1]

/-- Witness for the amended C3 on the concrete trajectory exEmptyFrames. -/
theorem contact_empty_selection_no_failure_witness :
    analyze_vdw_contacts exDist 15 exEmptyFrames =
      exEmptyFrames.map (fun fr => (fr.time, 0)) :=
  contact_empty_selection_no_failure exDist 15 exEmptyFrames (by decide)

unseal Rat.add Rat.sub Rat.mul Rat.inv in
/-- C5 (confirmed): max_force_index is the first index of the denoised
force column passing scipy's prominence-based local-maximum test with
prominence at least 30 — whenever it returns an index, that index is a
passing peak and is at most every passing peak.  On the spec scenario
[0, 10, 40, 10, 0] (table exGd) it returns 2, and the truncated denoised
force and denoised position arrays (rows [0, 2)) each have length 2.  When
no index passes the test, the work integrator fails with noPeakFound (the
IndexError of peak_indices[0]) and writes nothing. -/
theorem work_peak_detection :
    max_force_index (exGd.map Prod.snd) = some 2 ∧
    ((exGd.take 2).map Prod.snd).length = 2 ∧
    ((exGd.take 2).map Prod.fst).length = 2 ∧
    (∀ (xs : List ℚ) (i : ℕ), max_force_index xs = some i →
      i ∈ findPeaksProm xs 30 ∧ ∀ j ∈ findPeaksProm xs 30, i ≤ j) ∧
    (∀ gd fd xd : List (ℚ × ℚ), max_force_index (gd.map Prod.snd) = none →
      workProgram (some gd) (some fd) (some xd) =
        ([], Except.error ScriptErr.noPeakFound)) := by
  refine ⟨by decide, by decide, by decide, ?_, ?_⟩
  · intro xs i h
    unfold max_force_index at h
    exact ⟨head_mem_of_eq_some _ _ h,
      sorted_head_le _ (findPeaksProm_sorted xs 30) i h⟩
  · intro gd fd xd h
    simp [workProgram, h]

/-- Witness for C5: the returned peak 2 of exGd is a passing peak and a
lower bound of all passing peaks, and on the peakless table exFlatGd the
pipeline errors with noPeakFound. -/
theorem work_peak_detection_witness :
    (2 ∈ findPeaksProm (exGd.map Prod.snd) 30 ∧
      ∀ j ∈ findPeaksProm (exGd.map Prod.snd) 30, 2 ≤ j) ∧
    workProgram (some exFlatGd) (some exFlatGd) (some exFlatGd) =
      ([], Except.error ScriptErr.noPeakFound) :=
  ⟨work_peak_detection.2.2.2.1 (exGd.map Prod.snd) 2 work_peak_detection.1,
    work_peak_detection.2.2.2.2 exFlatGd exFlatGd exFlatGd (by decide)⟩

/-- C7 (confirmed): in every component, each modelled failure — a
missing/unreadable/unparsable input, or no peak found — aborts the pipeline
with an empty write list: no output file is written on an erroneous run.
(The combiner and work integrator write only in their final success branch,
matching the scripts where np.savetxt and the two open(...) calls are the
last statements; the contact counter never writes a file at all.  An empty
selection is not a failure in the code — see the C3 theorems.) -/
theorem error_atomicity :
    (∀ (d1 d2 : Option (Table ℝ)) (e : ScriptErr),
      (combinerProgram Real.sqrt d1 d2).2 = Except.error e →
      (combinerProgram Real.sqrt d1 d2).1 = []) ∧
    (∀ (gd fd xd : Option (List (ℚ × ℚ))) (e : ScriptErr),
      (workProgram gd fd xd).2 = Except.error e →
      (workProgram gd fd xd).1 = []) ∧
    (∀ (dist : Pos → Pos → ℚ) (thr : ℚ) (u : Option (List Frame)),
      (counterProgram dist thr u).1 = []) := by
  refine ⟨?_, ?_, ?_⟩
  · intro d1 d2 e h
    cases d1 <;> cases d2 <;> simp_all [combinerProgram]
  · intro gd fd xd e h
    cases gd with
    | none => simp [workProgram]
    | some g =>
      cases fd with
      | none => simp [workProgram]
      | some f =>
        cases xd with
        | none => simp [workProgram]
        | some x =>
          cases hk : max_force_index (g.map Prod.snd) with
          | none => simp [workProgram, hk]
          | some k =>
            exfalso
            simp [workProgram, hk] at h
  · intro dist thr u
    cases u <;> simp [counterProgram]

/-- Witness for C7: each pipeline, run on unreadable inputs, errors with an
empty write list. -/
theorem error_atomicity_witness :
    (combinerProgram Real.sqrt (none : Option (Table ℝ)) none).1 = [] ∧
    (workProgram none none none).1 = [] ∧
    (counterProgram exDist 2 none).1 = [] :=
  ⟨error_atomicity.1 none none ScriptErr.ioError rfl,
    error_atomicity.2.1 none none none ScriptErr.ioError rfl,
    error_atomicity.2.2 exDist 2 none⟩
